import Mathlib

/-!
Verification of the download/reassembly engine of `backend/downloader.py`
(tumlive_downloader).

The Python source is shallowly embedded: each function is translated into a
pure Lean function over explicit inputs.  Filesystem state is a list of
existing path strings; network behaviour, cancellation-flag reads and the
external muxer's exit code are supplied by explicit oracle structures, so
every branch of the source's control flow appears as a branch of the Lean
definition.  Machine arithmetic does not occur in the modelled code (all
counters are small non-negative integers), so `Nat` is used throughout.
-/

namespace Downloader


/-! ## Filename sanitization (downloader.py line 103)

`re.sub('[\\\\/:*?"<>|]|[\x00-\x20]', '_', filename) + ".mp4"` replaces every
character in the illegal set and every control character (0x00-0x20) by an
underscore, then appends the extension. -/

/-- Characters replaced by `_`: the nine explicitly listed characters plus
all code points up to 0x20 (the regex class `[\x00-\x20]`). -/
def illegalChar (c : Char) : Bool :=
  c = '\\' || c = '/' || c = ':' || c = '*' || c = '?' || c = '"' ||
  c = '<' || c = '>' || c = '|' || c.toNat ≤ 0x20

/-- Model of line 103: filter illegal filename chars and append ".mp4". -/
def sanitize (name : String) : String :=
  String.mk (name.data.map (fun c => if illegalChar c then '_' else c)) ++ ".mp4"

/-- Path join `Path(output_folder_path, filename)` (POSIX form). -/
def outPath (folder fname : String) : String := folder ++ "/" ++ fname

/-- The lock-file path `output_file_path.as_posix() + ".lock"` (line 110). -/
def lockPath (p : String) : String := p ++ ".lock"

/-! ## Orchestrator: `download_list_of_videos` (lines 89-134)

The filesystem is the list of paths that exist.  The function returns the
final filesystem together with the list of output paths for which a worker
process was spawned, in spawn order.  The shared cancellation flag is read
twice per job in the source (lines 98 and 114); both reads are modelled by
the same value `cancel`, which is exact for the claims considered here (they
concern batches with no intervening cancellation). -/

def download_list_of_videos (folder : String) (cancel : Bool) :
    List (String × String) → List String → List String × List String
  | [], fs => (fs, [])
  | (name, _url) :: rest, fs =>
    if cancel then (fs, [])       -- line 98-100: break out of the loop
    else
      let out := outPath folder (sanitize name)
      if lockPath out ∈ fs || out ∈ fs then
        -- line 110-111 check failed: skip, no lock created, no process spawned
        download_list_of_videos folder cancel rest fs
      else
        -- line 118: touch the lock file; lines 125-130: spawn the worker
        let r := download_list_of_videos folder cancel rest (lockPath out :: fs)
        (r.1, out :: r.2)

/-! ## Two concurrent orchestrator instances (claim C2)

Each instance processes a single job for the same output path.  An instance
is a tiny program `check; create; done`: `check` evaluates the line-110
condition on the shared filesystem, `create` performs `Path(...).touch()`
(which in Python succeeds whether or not the file exists: `exist_ok=True`)
and spawns the worker.  A schedule is a list of booleans selecting which
instance performs its next step. -/

inductive IPc where
  | icheck  : IPc
  | icreate : IPc
  | idone   : IPc
deriving DecidableEq, Repr

structure RaceState where
  fs : List String
  pc1 : IPc
  pc2 : IPc
  workers1 : Nat
  workers2 : Nat
deriving DecidableEq, Repr

/-- One step of one orchestrator instance on the shared filesystem. -/
def instStep (lock out : String) (pc : IPc) (fs : List String) :
    IPc × List String × Nat :=
  match pc with
  | .icheck  => if lock ∈ fs || out ∈ fs then (.idone, fs, 0) else (.icreate, fs, 0)
  | .icreate => (.idone, lock :: fs, 1)   -- touch (exist_ok) then spawn
  | .idone   => (.idone, fs, 0)

/-- Run a schedule; `true` steps instance 1, `false` steps instance 2. -/
def raceRun (lock out : String) : List Bool → RaceState → RaceState
  | [], s => s
  | who :: sched, s =>
    if who then
      let r := instStep lock out s.pc1 s.fs
      raceRun lock out sched ⟨r.2.1, r.1, s.pc2, s.workers1 + r.2.2, s.workers2⟩
    else
      let r := instStep lock out s.pc2 s.fs
      raceRun lock out sched ⟨r.2.1, s.pc1, r.1, s.workers1, s.workers2 + r.2.2⟩

/-- Initial state: empty output directory, both instances about to check. -/
def raceInit : RaceState := ⟨[], .icheck, .icheck, 0, 0⟩

/-! ## Segment fetch: the inner function `download_ts` (lines 213-318)

A segment fetch interacts with the outside world through: the prior existence
of its destination file, reads of the shared cancellation flag (at function
entry, before each retry attempt, and at every streamed chunk), and the HTTP
response of each attempt.  These are collected in `SegEnv`.  The observable
effects — the returned path, the number of `requests.get` calls, the
`time.sleep` backoff waits, the error-log entries, the progress-counter
increment and whether a partial `.tmp` file is left behind — form
`SegResult`. -/

/-- Decimal digits of `i`, zero-padded to width `w`, most significant first.
Model of the format string f"{index:05d}" (with `w = 5`); faithful for
`i < 10^w`, which the theorems that depend on the padding assume (an HLS
manifest has far fewer than 100000 segments). -/
def zeroPad : Nat → Nat → List Char
  | 0, _ => []
  | w + 1, i => Nat.digitChar (i / 10 ^ w) :: zeroPad w (i % 10 ^ w)

/-- Segment file name `f"{index:05d}.ts"` (line 221).  The enclosing
`ts_folder` prefix is common to all segments of a lecture and does not affect
their relative order, so file names stand in for full paths. -/
def segName (index : Nat) : String :=
  String.mk (zeroPad 5 index) ++ ".ts"

/-- Outcome of one `requests.get` attempt: an exception (network error or
non-2xx status via `raise_for_status`), or a streamed body given as the list
of chunk sizes delivered by `iter_content`. -/
inductive AttemptOutcome where
  | httpError : AttemptOutcome
  | body : List Nat → AttemptOutcome
deriving DecidableEq, Repr

/-- Oracle for one segment fetch. -/
structure SegEnv where
  /-- Does `ts_path` already exist on disk (line 232)? -/
  exists0 : Bool
  /-- Cancellation flag at function entry (line 217). -/
  cancelEntry : Bool
  /-- Cancellation flag at the check before attempt `a` (line 246). -/
  cancelPre : Nat → Bool
  /-- Cancellation flag while streaming chunk `j` of attempt `a` (line 270). -/
  cancelChunk : Nat → Nat → Bool
  /-- HTTP outcome of attempt `a` (lines 258-259, 268). -/
  outcome : Nat → AttemptOutcome

/-- Observable effects of one segment fetch. -/
structure SegResult where
  /-- The value returned by `download_ts`. -/
  result : Option String
  /-- Number of `requests.get` calls performed. -/
  netCalls : Nat
  /-- The `time.sleep(2 ** attempt)` waits, in order (line 316). -/
  sleeps : List Nat
  /-- Indices logged by `log_error(f"Segment {index} failed after ...")`
  (line 315); at most one entry, for this segment's index. -/
  segLog : List Nat
  /-- Did this fetch increment `completed_segments` (and push a progress
  update) under the lock (lines 233-240 or 292-299)? -/
  completedInc : Bool
  /-- Is a partial `.tmp` file left on disk?  Every exit path of the source
  either renames it (success), unlinks it (cancellation mid-stream, line 274;
  exception cleanup, lines 307-312) or never created it. -/
  tmpLeft : Bool
deriving DecidableEq, Repr

/-- Stream the response body chunk by chunk (lines 267-279): before writing
chunk `j` the cancellation flag is checked; if set, the partial temp file is
deleted and the fetch aborts (`none`).  Otherwise returns the number of bytes
written. -/
def writeChunks (cancel : Nat → Bool) : List Nat → Nat → Nat → Option Nat
  | [], _, size => some size
  | c :: rest, j, size =>
    if cancel j then none else writeChunks cancel rest (j + 1) (size + c)

/-- The retry loop `for attempt in range(max_retries)` (lines 244-316),
processing the listed attempt numbers in order.  An attempt fails by raising
(HTTP error, or the written temp file is empty, line 282); failure cleans up
the temp file, logs the segment on the final attempt, sleeps `2 ** attempt`
and retries.  Falling off the loop returns `None` (line 318). -/
def tsAttempts (env : SegEnv) (index : Nat) : List Nat → SegResult
  | [] => ⟨none, 0, [], [], false, false⟩
  | a :: rest =>
    if env.cancelPre a then ⟨none, 0, [], [], false, false⟩
    else
      match env.outcome a with
      | .httpError =>
        let r := tsAttempts env index rest
        ⟨r.result, r.netCalls + 1, 2 ^ a :: r.sleeps,
          (if rest = [] then [index] else []) ++ r.segLog, r.completedInc, r.tmpLeft⟩
      | .body chunks =>
        match writeChunks (env.cancelChunk a) chunks 0 0 with
        | none => ⟨none, 1, [], [], false, false⟩   -- cancelled mid-stream, temp deleted
        | some size =>
          if size = 0 then
            -- "Temp file not written properly": raised, cleaned up, retried
            let r := tsAttempts env index rest
            ⟨r.result, r.netCalls + 1, 2 ^ a :: r.sleeps,
              (if rest = [] then [index] else []) ++ r.segLog, r.completedInc, r.tmpLeft⟩
          else ⟨some (segName index), 1, [], [], true, false⟩

/-- Model of `download_ts` (lines 213-318): entry cancellation check, then
the already-on-disk fast path, then up to `max_retries = 5` attempts. -/
def download_ts (env : SegEnv) (index : Nat) : SegResult :=
  if env.cancelEntry then ⟨none, 0, [], [], false, false⟩
  else if env.exists0 then ⟨some (segName index), 0, [], [], true, false⟩
  else tsAttempts env index (List.range 5)

/-- The thread pool `executor.map(download_ts, ts_urls, range(len(ts_urls)))`
(lines 320-321).  Each segment's fetch is independent of the others, so the
per-segment results do not depend on thread interleaving; `executor.map`
returns them in index order. -/
def downloadPool (envs : Nat → SegEnv) (n : Nat) : List SegResult :=
  (List.range n).map (fun i => download_ts (envs i) i)

/-! ## The concat manifest (lines 338-342) and claim C5

`sorted(segment_paths)` sorts the per-segment `Path`s; all live in the same
`ts_folder`, so Python's path comparison reduces to the lexicographic order
of the file names, modelled by `String`'s lexicographic order and
`List.mergeSort`.  One `file '<name>'` line is written per path. -/

/-- The apostrophe character used to quote the name in a concat line. -/
def quoteChar : Char := Char.ofNat 39

/-- One line of `segments.txt`: `f"file '{ts_path.name}'"` (line 342). -/
def manifestLine (name : String) : String :=
  "file " ++ String.mk [quoteChar] ++ name ++ String.mk [quoteChar]

/-- Python's `sorted` on the fetched paths (line 341): a stable sort by the
lexicographic order on strings. -/
def pySorted (paths : List String) : List String :=
  paths.mergeSort (fun a b => decide (a ≤ b))

/-- The whole concat manifest, in file order (lines 340-342). -/
def concatManifest (paths : List String) : List String :=
  (pySorted paths).map manifestLine

/-! ## Progress store: `update_progress` (lines 26-68)

The store maps a filename to a record.  The wall-clock fields (`rate`,
`last_update`) are not modelled.  The percentage `int((current/total)*100)`
is modelled with exact integer arithmetic `100 * current / total`; Python
evaluates it through binary floating point, which agrees with the exact
value except for rare one-off rounding (e.g. `int(0.29*100) = 28`); no claim
below depends on the affected values. -/

/-- The record stored for a file by one `update_progress(filename, current,
total, rate)` call. -/
structure ProgressEntry where
  current : Nat
  total : Nat
  percentage : Nat
  status : String
deriving DecidableEq, Repr

/-- Model of `update_progress` (lines 38-57): status and percentage are
derived from the `current` and `total` arguments, which are stored as is. -/
def update_progress (current total : Nat) : ProgressEntry :=
  if current ≥ total ∧ total > 0 then ⟨current, total, 100, "completed"⟩
  else if current > 0 then
    ⟨current, total,
      if total > 0 then min 100 (100 * current / total) else 0, "downloading"⟩
  else ⟨current, total, 0, "starting"⟩

/-- The integer percentage `int((completed_segments / total_segments) * 100)
if total_segments > 0 else 0` (lines 239 and 298); `Nat` division by zero is
zero, matching the guard. -/
def pct (completed total : Nat) : Nat := 100 * completed / total

/-- The `(current, total)` argument pairs passed to `update_progress` by the
pool, in completion order: each completing segment increments the shared
counter under the lock and immediately publishes `(pct, 100)` with the fresh
counter value (lines 233-240 and 292-299).  `oks` records, in completion
order, whether each finishing fetch incremented the counter. -/
def poolProgressWrites (total : Nat) : List Bool → Nat → List (Nat × Nat)
  | [], _ => []
  | ok :: rest, c =>
    if ok then (pct (c + 1) total, 100) :: poolProgressWrites total rest (c + 1)
    else poolProgressWrites total rest c

/-! ## The worker: `download` (lines 136-383) -/

/-- Entries appended to `download_errors.log` by `log_error`. -/
inductive LogEntry where
  /-- `f"Segment {index} failed after {max_retries} attempts"` (line 315). -/
  | segmentFailed : Nat → LogEntry
  /-- `f"{missing} segments failed to download..."` (line 325). -/
  | segmentsMissing : Nat → LogEntry
  /-- `f"Cannot write to temp directory..."` (line 197). -/
  | writeAccessError : LogEntry
  /-- `f"Failed to download segments: {e}"` (line 330). -/
  | downloadPhaseError : LogEntry
  /-- `f"FFmpeg failed: {error_msg}"` (line 367). -/
  | ffmpegFailed : LogEntry
  /-- `f"FFmpeg stderr: ..."` (line 368). -/
  | ffmpegStderrDump : LogEntry
deriving DecidableEq, Repr

/-- Oracle for one run of the worker function `download`. -/
structure DlEnv where
  /-- Cancellation flag at line 143. -/
  cancelAtStart : Bool
  /-- Cancellation flag at line 151. -/
  cancelBeforeAcquire : Bool
  /-- Cancellation flag at line 160, after `semaphore.acquire()`. -/
  cancelAfterAcquire : Bool
  /-- Does `m3u8.load(playlist_url)` succeed (line 183)? -/
  playlistOk : Bool
  /-- Does the temp-directory write test succeed (lines 192-195)? -/
  writeAccessOk : Bool
  /-- `len(ts_urls)`: number of segments in the parsed playlist. -/
  nSegments : Nat
  /-- Per-segment fetch oracles. -/
  segEnvs : Nat → SegEnv
  /-- Does the ffmpeg subprocess exit with return code 0 (line 357)? -/
  ffmpegOk : Bool

/-- Observable effects of one run of `download`. -/
structure DlResult where
  /-- Was `semaphore.acquire()` (line 156) executed? -/
  semAcquired : Bool
  /-- Was `semaphore.release()` executed on the taken exit path? -/
  semReleased : Bool
  /-- Was the ffmpeg subprocess invoked (line 344)? -/
  muxInvoked : Bool
  /-- Was the muxed file copied to the output location (line 378)? -/
  published : Bool
  /-- Was the lock file removed (line 381)? -/
  lockRemoved : Bool
  /-- The `(current, total)` pairs passed to `update_progress`, in order. -/
  progressWrites : List (Nat × Nat)
  /-- The entries appended to `download_errors.log`, in order. -/
  errorLog : List LogEntry
  /-- The per-segment results of the pool (index order). -/
  segResults : List SegResult
  /-- `segment_paths` after dropping `None` results (line 322). -/
  segmentPaths : List String
  /-- The lines of `segments.txt` (lines 340-342). -/
  manifest : List String
deriving DecidableEq, Repr

/-- Model of the worker `download` (lines 136-383).  Exit paths, in source
order: cancellation at lines 143, 151 and 160; the phase-1 exception handler
(playlist load failure, lines 329-335); the temp-directory write test
failure (lines 196-202); the ffmpeg failure return (lines 357-369); and the
success path (lines 371-383).  Exceptions inside `download_ts` are caught by
its own retry loop, so the pool itself does not raise. -/
def download (env : DlEnv) : DlResult :=
  if env.cancelAtStart then
    ⟨false, false, false, false, false, [], [], [], [], []⟩
  else if env.cancelBeforeAcquire then
    -- line 148 already wrote (0, 100)
    ⟨false, false, false, false, false, [(0, 100)], [], [], [], []⟩
  else if env.cancelAfterAcquire then
    -- acquired at line 156, released at line 162
    ⟨true, true, false, false, false, [(0, 100)], [], [], [], []⟩
  else if !env.playlistOk then
    -- lines 329-335: log, reset progress to 0, release, return
    ⟨true, true, false, false, false, [(0, 100), (1, 100), (0, 100)],
      [.downloadPhaseError], [], [], []⟩
  else if !env.writeAccessOk then
    -- lines 196-202: log, reset progress to 0, release, return
    ⟨true, true, false, false, false, [(0, 100), (1, 100), (0, 100)],
      [.writeAccessError], [], [], []⟩
  else
    let segRs := downloadPool env.segEnvs env.nSegments
    let poolW := poolProgressWrites env.nSegments
      (segRs.map (fun r => r.completedInc)) 0
    let paths := segRs.filterMap (fun r => r.result)
    let segLogs := (segRs.map (fun r => r.segLog)).flatten.map LogEntry.segmentFailed
    let missLog := if paths.length < env.nSegments
      then [LogEntry.segmentsMissing (env.nSegments - paths.length)] else []
    if !env.ffmpegOk then
      -- lines 357-369: log diagnostics and return WITHOUT releasing
      ⟨true, false, true, false, false, [(0, 100), (1, 100)] ++ poolW,
        segLogs ++ missLog ++ [.ffmpegFailed, .ffmpegStderrDump],
        segRs, paths, concatManifest paths⟩
    else
      -- lines 371-383: final progress write, publish, unlock, release
      ⟨true, true, true, true, true,
        [(0, 100), (1, 100)] ++ poolW ++ [(100, 100)],
        segLogs ++ missLog, segRs, paths, concatManifest paths⟩


/-! ### Helper lemmas about the orchestrator -/

/-- The filesystem only grows during a batch. -/
theorem dlv_fs_mono (folder : String) (cancel : Bool) :
    ∀ (vs : List (String × String)) (fs : List String) (p : String),
      p ∈ fs → p ∈ (download_list_of_videos folder cancel vs fs).1 := by
  intro vs
  induction vs with
  | nil => intro fs p hp; simpa [download_list_of_videos] using hp
  | cons v rest ih =>
    intro fs p hp
    obtain ⟨name, url⟩ := v
    by_cases hc : cancel
    · simpa [download_list_of_videos, hc] using hp
    · by_cases hskip :
        lockPath (outPath folder (sanitize name)) ∈ fs ∨ outPath folder (sanitize name) ∈ fs
      · have : (lockPath (outPath folder (sanitize name)) ∈ fs
            || outPath folder (sanitize name) ∈ fs) = true := by
          simpa [Bool.or_eq_true, decide_eq_true_eq] using hskip
        simpa [download_list_of_videos, hc, this] using ih fs p hp
      · have : (lockPath (outPath folder (sanitize name)) ∈ fs
            || outPath folder (sanitize name) ∈ fs) = false := by
          simpa [Bool.or_eq_true, decide_eq_true_eq] using hskip
        simpa [download_list_of_videos, hc, this] using
          ih (lockPath (outPath folder (sanitize name)) :: fs) p (List.mem_cons_of_mem _ hp)

/-- A worker is spawned for an output path only if neither its lock file nor
the output file existed when the batch started. -/
theorem dlv_spawned_not_locked (folder : String) (cancel : Bool) :
    ∀ (vs : List (String × String)) (fs : List String) (out : String),
      out ∈ (download_list_of_videos folder cancel vs fs).2 →
      lockPath out ∉ fs ∧ out ∉ fs := by
  intro vs
  induction vs with
  | nil => intro fs out h; simp [download_list_of_videos] at h
  | cons v rest ih =>
    intro fs out h
    obtain ⟨name, url⟩ := v
    by_cases hc : cancel
    · simp [download_list_of_videos, hc] at h
    · by_cases hskip :
        lockPath (outPath folder (sanitize name)) ∈ fs ∨ outPath folder (sanitize name) ∈ fs
      · have hb : (lockPath (outPath folder (sanitize name)) ∈ fs
            || outPath folder (sanitize name) ∈ fs) = true := by
          simpa [Bool.or_eq_true, decide_eq_true_eq] using hskip
        rw [show download_list_of_videos folder cancel ((name, url) :: rest) fs
              = download_list_of_videos folder cancel rest fs by
            simp [download_list_of_videos, hc, hb]] at h
        exact ih fs out h
      · have hb : (lockPath (outPath folder (sanitize name)) ∈ fs
            || outPath folder (sanitize name) ∈ fs) = false := by
          simpa [Bool.or_eq_true, decide_eq_true_eq] using hskip
        push_neg at hskip
        rw [show download_list_of_videos folder cancel ((name, url) :: rest) fs
              = ((download_list_of_videos folder cancel rest
                    (lockPath (outPath folder (sanitize name)) :: fs)).1,
                 outPath folder (sanitize name) ::
                   (download_list_of_videos folder cancel rest
                     (lockPath (outPath folder (sanitize name)) :: fs)).2) by
            simp [download_list_of_videos, hc, hb]] at h
        rcases List.mem_cons.mp h with heq | hmem
        · subst heq; exact ⟨hskip.1, hskip.2⟩
        · have := ih (lockPath (outPath folder (sanitize name)) :: fs) out hmem
          exact ⟨fun hmemfs => this.1 (List.mem_cons_of_mem _ hmemfs),
                 fun hmemfs => this.2 (List.mem_cons_of_mem _ hmemfs)⟩

/-- After a batch, every job in the list has its lock file or its output file
present in the resulting filesystem (skipped jobs had one already; spawned
jobs just created the lock). -/
theorem dlv_covered (folder : String) :
    ∀ (vs : List (String × String)) (fs : List String) (name url : String),
      (name, url) ∈ vs →
      lockPath (outPath folder (sanitize name))
          ∈ (download_list_of_videos folder false vs fs).1 ∨
        outPath folder (sanitize name) ∈ (download_list_of_videos folder false vs fs).1 := by
  intro vs
  induction vs with
  | nil => intro fs name url h; simp at h
  | cons v rest ih =>
    intro fs name url h
    obtain ⟨name', url'⟩ := v
    by_cases hskip :
      lockPath (outPath folder (sanitize name')) ∈ fs ∨ outPath folder (sanitize name') ∈ fs
    · have hb : (lockPath (outPath folder (sanitize name')) ∈ fs
          || outPath folder (sanitize name') ∈ fs) = true := by
        simpa [Bool.or_eq_true, decide_eq_true_eq] using hskip
      rw [show download_list_of_videos folder false ((name', url') :: rest) fs
            = download_list_of_videos folder false rest fs by
          simp [download_list_of_videos, hb]]
      rcases List.mem_cons.mp h with heq | hmem
      · obtain ⟨h1, h2⟩ := Prod.mk.injEq .. ▸ heq
        subst h1
        rcases hskip with hl | ho
        · exact Or.inl (dlv_fs_mono folder false rest fs _ hl)
        · exact Or.inr (dlv_fs_mono folder false rest fs _ ho)
      · exact ih fs name url hmem
    · have hb : (lockPath (outPath folder (sanitize name')) ∈ fs
          || outPath folder (sanitize name') ∈ fs) = false := by
        simpa [Bool.or_eq_true, decide_eq_true_eq] using hskip
      rw [show download_list_of_videos folder false ((name', url') :: rest) fs
            = ((download_list_of_videos folder false rest
                  (lockPath (outPath folder (sanitize name')) :: fs)).1,
               outPath folder (sanitize name') ::
                 (download_list_of_videos folder false rest
                   (lockPath (outPath folder (sanitize name')) :: fs)).2) by
          simp [download_list_of_videos, hb]]
      rcases List.mem_cons.mp h with heq | hmem
      · obtain ⟨h1, h2⟩ := Prod.mk.injEq .. ▸ heq
        subst h1
        exact Or.inl (dlv_fs_mono folder false rest _ _ (List.mem_cons_self _ _))
      · exact ih (lockPath (outPath folder (sanitize name')) :: fs) name url hmem

/-- If every job's lock or output file is already present, a batch spawns no
worker at all. -/
theorem dlv_all_covered_spawns_none (folder : String) :
    ∀ (vs : List (String × String)) (fs : List String),
      (∀ name url, (name, url) ∈ vs →
        lockPath (outPath folder (sanitize name)) ∈ fs ∨
          outPath folder (sanitize name) ∈ fs) →
      (download_list_of_videos folder false vs fs).2 = [] := by
  intro vs
  induction vs with
  | nil => intro fs _; simp [download_list_of_videos]
  | cons v rest ih =>
    intro fs hcov
    obtain ⟨name, url⟩ := v
    have hskip := hcov name url (List.mem_cons_self _ _)
    have hb : (lockPath (outPath folder (sanitize name)) ∈ fs
        || outPath folder (sanitize name) ∈ fs) = true := by
      simpa [Bool.or_eq_true, decide_eq_true_eq] using hskip
    rw [show download_list_of_videos folder false ((name, url) :: rest) fs
          = download_list_of_videos folder false rest fs by
        simp [download_list_of_videos, hb]]
    exact ih fs (fun n u hm => hcov n u (List.mem_cons_of_mem _ hm))

/-! ### Helper lemmas about the segment fetch -/

/-- At most one network call per listed attempt. -/
theorem tsAttempts_netCalls_le (env : SegEnv) (index : Nat) :
    ∀ l : List Nat, (tsAttempts env index l).netCalls ≤ l.length := by
  intro l
  induction l with
  | nil => simp [tsAttempts]
  | cons a rest ih =>
    by_cases hc : env.cancelPre a
    · simp [tsAttempts, hc]
    · cases houtcome : env.outcome a with
      | httpError =>
        simp only [tsAttempts, hc, if_false, houtcome, Bool.false_eq_true, List.length_cons]
        omega
      | body chunks =>
        cases hw : writeChunks (env.cancelChunk a) chunks 0 0 with
        | none => simp [tsAttempts, hc, houtcome, hw]
        | some size =>
          by_cases hs : size = 0
          · simp only [tsAttempts, hc, if_false, houtcome, hw, hs, if_true,
              Bool.false_eq_true, List.length_cons]
            omega
          · simp only [tsAttempts, hc, if_false, houtcome, hw, hs, if_false,
              Bool.false_eq_true, List.length_cons]
            omega

/-- If the flag is never set and every attempt raises, the whole listed
attempt sequence is consumed: one network call and one backoff sleep per
attempt, the segment is logged on the final attempt and `None` is returned. -/
theorem tsAttempts_all_fail (env : SegEnv) (index : Nat)
    (hc : ∀ a, env.cancelPre a = false)
    (hf : ∀ a, env.outcome a = .httpError) :
    ∀ l : List Nat, l ≠ [] →
      tsAttempts env index l
        = ⟨none, l.length, l.map (2 ^ ·), [index], false, false⟩ := by
  intro l
  induction l with
  | nil => intro h; exact absurd rfl h
  | cons a rest ih =>
    intro _
    by_cases hrest : rest = []
    · subst hrest
      simp [tsAttempts, hc a, hf a]
    · rw [show tsAttempts env index (a :: rest)
          = ⟨(tsAttempts env index rest).result, (tsAttempts env index rest).netCalls + 1,
             2 ^ a :: (tsAttempts env index rest).sleeps,
             (if rest = [] then [index] else []) ++ (tsAttempts env index rest).segLog,
             (tsAttempts env index rest).completedInc,
             (tsAttempts env index rest).tmpLeft⟩ by
          simp [tsAttempts, hc a, hf a]]
      rw [ih hrest]
      simp [hrest, Nat.add_comm]

/-- A fetch whose destination file already exists returns the path with no
network access and counts as completed. -/
theorem download_ts_exists (env : SegEnv) (index : Nat)
    (hce : env.cancelEntry = false) (hex : env.exists0 = true) :
    download_ts env index = ⟨some (segName index), 0, [], [], true, false⟩ := by
  simp [download_ts, hce, hex]

/-- A fetch with no prior file, no cancellation and a non-empty body on the
first attempt succeeds with exactly one network call. -/
theorem download_ts_first_try (env : SegEnv) (index : Nat)
    (hce : env.cancelEntry = false) (hex : env.exists0 = false)
    (hp : env.cancelPre 0 = false) (chunks : List Nat)
    (hb : env.outcome 0 = .body chunks)
    (hcc : ∀ j, env.cancelChunk 0 j = false)
    (hsz : 0 < chunks.sum) :
    download_ts env index = ⟨some (segName index), 1, [], [], true, false⟩ := by
  have hw : ∀ (cs : List Nat) (j size : Nat),
      writeChunks (env.cancelChunk 0) cs j size = some (size + cs.sum) := by
    intro cs
    induction cs with
    | nil => intro j size; simp [writeChunks]
    | cons c rest ih =>
      intro j size
      simp [writeChunks, hcc j, ih (j + 1) (size + c), Nat.add_assoc]
  have h5 : List.range 5 = 0 :: [1, 2, 3, 4] := by decide
  rw [download_ts, hce, hex]
  simp only [Bool.false_eq_true, if_false, h5]
  rw [tsAttempts]
  simp [hp, hb, hw chunks 0 0, Nat.pos_iff_ne_zero.mp hsz]

/-- All-failing fetch: five attempts, backoff 1,2,4,8,16, final log, `None`. -/
theorem download_ts_all_fail (env : SegEnv) (index : Nat)
    (hce : env.cancelEntry = false) (hex : env.exists0 = false)
    (hc : ∀ a, env.cancelPre a = false)
    (hf : ∀ a, env.outcome a = .httpError) :
    download_ts env index = ⟨none, 5, [1, 2, 4, 8, 16], [index], false, false⟩ := by
  rw [download_ts, hce, hex]
  simp only [Bool.false_eq_true, if_false]
  rw [tsAttempts_all_fail env index hc hf (List.range 5) (by decide)]
  rfl

/-! ### Claim C3 -/

/-- C3: a fetch whose destination file already exists returns the path with
zero network calls, and a pool run over a lecture whose segments `0..k`
already exist fetches only segments `k+1..n-1` over the network: the pool's
result list shows `netCalls = 0` for every index up to `k` and `netCalls = 1`
(a real fetch) beyond it. -/
theorem c3_resume_skips_existing_segments :
    (∀ (env : SegEnv) (index : Nat), env.cancelEntry = false → env.exists0 = true →
        download_ts env index = ⟨some (segName index), 0, [], [], true, false⟩) ∧
    (∀ (envs : Nat → SegEnv) (n k : Nat),
        (∀ i, (envs i).cancelEntry = false) →
        (∀ i, i ≤ k → (envs i).exists0 = true) →
        (∀ i, k < i → (envs i).exists0 = false ∧ (envs i).cancelPre 0 = false ∧
          (envs i).outcome 0 = .body [1] ∧ ∀ j, (envs i).cancelChunk 0 j = false) →
        downloadPool envs n
          = (List.range n).map (fun i =>
              if i ≤ k then ⟨some (segName i), 0, [], [], true, false⟩
              else ⟨some (segName i), 1, [], [], true, false⟩)) := by
  constructor
  · exact fun env index hce hex => download_ts_exists env index hce hex
  · intro envs n k hce hex hnet
    unfold downloadPool
    apply List.map_congr_left
    intro i _
    by_cases hik : i ≤ k
    · rw [download_ts_exists (envs i) i (hce i) (hex i hik), if_pos hik]
    · have hk := hnet i (Nat.lt_of_not_le hik)
      rw [download_ts_first_try (envs i) i (hce i) hk.1 hk.2.1 [1] hk.2.2.1 hk.2.2.2
          (by simp), if_neg hik]

/-- Witness for C3: five segments of which `0..2` are on disk; the pool run
performs no network call for them and one call each for segments 3 and 4. -/
theorem c3_witness :
    downloadPool
        (fun i => if i ≤ 2 then
            ⟨true, false, fun _ => false, fun _ _ => false, fun _ => .body [1]⟩
          else ⟨false, false, fun _ => false, fun _ _ => false, fun _ => .body [1]⟩) 5
      = (List.range 5).map (fun i =>
          if i ≤ 2 then ⟨some (segName i), 0, [], [], true, false⟩
          else ⟨some (segName i), 1, [], [], true, false⟩) := by
  refine c3_resume_skips_existing_segments.2 _ 5 2 (fun i => ?_) (fun i hi => ?_)
    (fun i hi => ?_)
  · by_cases h : i ≤ 2 <;> simp [h]
  · simp [hi]
  · have h : ¬ i ≤ 2 := Nat.not_le_of_lt hi
    exact ⟨by simp [h], by simp [h], by simp [h], fun j => by simp [h]⟩

/-! ### Claim C4 -/

/-- C4: a segment fetch makes at most 5 network attempts; when every attempt
fails (and no cancellation intervenes) it makes exactly 5, sleeping
`2 ** attempt` seconds after failed attempt `attempt` — the waits are
1, 2, 4, 8, 16 seconds — and returns `None` after the fifth failure. -/
theorem c4_retry_backoff :
    (∀ (env : SegEnv) (index : Nat), (download_ts env index).netCalls ≤ 5) ∧
    (∀ (env : SegEnv) (index : Nat),
        env.cancelEntry = false → env.exists0 = false →
        (∀ a, env.cancelPre a = false) →
        (∀ a, env.outcome a = .httpError) →
        download_ts env index = ⟨none, 5, [1, 2, 4, 8, 16], [index], false, false⟩) := by
  constructor
  · intro env index
    unfold download_ts
    by_cases hce : env.cancelEntry
    · simp [hce]
    · by_cases hex : env.exists0
      · simp [hce, hex]
      · simp only [hce, hex, Bool.false_eq_true, if_false]
        simpa using tsAttempts_netCalls_le env index (List.range 5)
  · exact fun env index hce hex hc hf => download_ts_all_fail env index hce hex hc hf

/-- Witness for C4: a concrete always-failing fetch of segment 7 performs
five attempts with waits 1, 2, 4, 8, 16 and returns `None`. -/
theorem c4_witness :
    download_ts ⟨false, false, fun _ => false, fun _ _ => false, fun _ => .httpError⟩ 7
      = ⟨none, 5, [1, 2, 4, 8, 16], [7], false, false⟩ :=
  c4_retry_backoff.2 _ 7 rfl rfl (fun _ => rfl) (fun _ => rfl)

/-! ### Lexicographic order of zero-padded decimal names -/

theorem digitChar_lt_iff :
    ∀ a, a < 10 → ∀ b, b < 10 → (Nat.digitChar a < Nat.digitChar b ↔ a < b) := by
  decide

theorem digitChar_eq_iff :
    ∀ a, a < 10 → ∀ b, b < 10 → (Nat.digitChar a = Nat.digitChar b ↔ a = b) := by
  decide

/-- Comparison of naturals through their leading digit and remainder. -/
theorem lt_iff_div_lt_or (B i j : Nat) (hB : 0 < B) :
    i < j ↔ i / B < j / B ∨ (i / B = j / B ∧ i % B < j % B) := by
  have e1 := Nat.div_add_mod i B
  have e2 := Nat.div_add_mod j B
  constructor
  · intro h
    rcases Nat.lt_trichotomy (i / B) (j / B) with h' | h' | h'
    · exact Or.inl h'
    · refine Or.inr ⟨h', ?_⟩
      rw [h'] at e1
      omega
    · exfalso
      have hmul : B * (j / B + 1) ≤ B * (i / B) :=
        Nat.mul_le_mul_left B (Nat.succ_le_of_lt h')
      rw [Nat.mul_succ] at hmul
      have hm : j % B < B := Nat.mod_lt _ hB
      omega
  · rintro (h' | ⟨he, hm⟩)
    · have hmul : B * (i / B + 1) ≤ B * (j / B) :=
        Nat.mul_le_mul_left B (Nat.succ_le_of_lt h')
      rw [Nat.mul_succ] at hmul
      have hmi : i % B < B := Nat.mod_lt _ hB
      omega
    · rw [he] at e1
      omega

theorem zeroPad_length : ∀ (w i : Nat), (zeroPad w i).length = w := by
  intro w
  induction w with
  | zero => intro i; simp [zeroPad]
  | succ w ih => intro i; simp [zeroPad, ih]

/-- Decomposition of a lexicographic comparison of two nonempty lists. -/
theorem lex_cons_cons_iff {α : Type} {r : α → α → Prop} {a b : α} {l₁ l₂ : List α} :
    List.Lex r (a :: l₁) (b :: l₂) ↔ r a b ∨ (a = b ∧ List.Lex r l₁ l₂) := by
  constructor
  · intro h
    cases h with
    | cons h => exact Or.inr ⟨rfl, h⟩
    | rel h => exact Or.inl h
  · rintro (h | ⟨rfl, h⟩)
    · exact List.Lex.rel h
    · exact List.Lex.cons h

/-- For values below `10 ^ w`, the lexicographic order of the zero-padded
digit strings coincides with the numeric order. -/
theorem zeroPad_lex_iff :
    ∀ (w i j : Nat), i < 10 ^ w → j < 10 ^ w →
      (List.Lex (· < ·) (zeroPad w i) (zeroPad w j) ↔ i < j) := by
  intro w
  induction w with
  | zero =>
    intro i j hi hj
    simp only [pow_zero, Nat.lt_one_iff] at hi hj
    subst hi; subst hj
    simp [zeroPad]
  | succ w ih =>
    intro i j hi hj
    have hpow : 0 < 10 ^ w := Nat.pos_pow_of_pos w (by norm_num)
    have hdi : i / 10 ^ w < 10 := by
      rw [Nat.div_lt_iff_lt_mul hpow]
      calc i < 10 ^ (w + 1) := hi
        _ = 10 * 10 ^ w := by ring
    have hdj : j / 10 ^ w < 10 := by
      rw [Nat.div_lt_iff_lt_mul hpow]
      calc j < 10 ^ (w + 1) := hj
        _ = 10 * 10 ^ w := by ring
    rw [zeroPad, zeroPad, lex_cons_cons_iff,
      digitChar_lt_iff _ hdi _ hdj, digitChar_eq_iff _ hdi _ hdj,
      ih (i % 10 ^ w) (j % 10 ^ w) (Nat.mod_lt _ hpow) (Nat.mod_lt _ hpow),
      lt_iff_div_lt_or (10 ^ w) i j hpow]

/-- Appending a common suffix preserves a lexicographic comparison of two
lists of the same length. -/
theorem lex_append_same {α : Type} {r : α → α → Prop} (s : List α) :
    ∀ {p₁ p₂ : List α}, List.Lex r p₁ p₂ → p₁.length = p₂.length →
      List.Lex r (p₁ ++ s) (p₂ ++ s) := by
  intro p₁ p₂ h
  induction h with
  | nil => intro hlen; simp at hlen
  | cons h ih =>
    intro hlen
    exact List.Lex.cons (ih (by simpa using hlen))
  | rel h => intro _; exact List.Lex.rel h

/-- Strict monotonicity of segment names below the padding width. -/
theorem segName_lt_of_lt {i j : Nat} (hi : i < 100000) (hj : j < 100000)
    (h : i < j) : segName i < segName j := by
  have hb : (100000 : Nat) = 10 ^ 5 := by norm_num
  rw [String.lt_iff_toList_lt]
  show List.Lex (· < ·) (zeroPad 5 i ++ ".ts".data) (zeroPad 5 j ++ ".ts".data)
  exact lex_append_same _
    ((zeroPad_lex_iff 5 i j (hb ▸ hi) (hb ▸ hj)).mpr h)
    (by rw [zeroPad_length, zeroPad_length])

/-- Monotonicity of segment names below the padding width. -/
theorem segName_le_of_le {i j : Nat} (hi : i < 100000) (hj : j < 100000)
    (h : i ≤ j) : segName i ≤ segName j := by
  rcases Nat.lt_or_ge i j with hlt | hge
  · exact le_of_lt (segName_lt_of_lt hi hj hlt)
  · have : i = j := Nat.le_antisymm h hge
    subst this
    exact le_refl _

/-- Sorting with the decidable `≤` of a linear order yields a `≤`-sorted
list. -/
theorem mergeSort_sorted_le {α : Type} [LinearOrder α] (l : List α) :
    (l.mergeSort (fun a b => decide (a ≤ b))).Sorted (· ≤ ·) := by
  have h := @List.sorted_mergeSort α (fun a b : α => decide (a ≤ b))
    (fun a b c hab hbc => by
      simp only [decide_eq_true_eq] at hab hbc ⊢
      exact le_trans hab hbc)
    (fun a b => by
      simpa [Bool.or_eq_true, decide_eq_true_eq] using le_total a b) l
  exact h.imp (fun h => of_decide_eq_true h)

/-- Sorting the padded names is the same as sorting the indices and then
naming them. -/
theorem mergeSort_map_segName (idxs : List Nat) (h : ∀ i ∈ idxs, i < 100000) :
    (idxs.map segName).mergeSort (fun a b => decide (a ≤ b))
      = (idxs.mergeSort (fun a b => decide (a ≤ b))).map segName := by
  apply List.eq_of_perm_of_sorted (r := (· ≤ · : String → String → Prop))
  · exact (List.mergeSort_perm _ _).trans
      (((List.mergeSort_perm idxs _).map segName).symm)
  · exact mergeSort_sorted_le _
  · rw [List.Sorted, List.pairwise_map]
    have hs : (idxs.mergeSort (fun a b => decide (a ≤ b))).Sorted (· ≤ ·) :=
      mergeSort_sorted_le idxs
    refine hs.imp_of_mem (fun ha hb hab => ?_)
    have hmem : ∀ x ∈ idxs.mergeSort (fun a b => decide (a ≤ b)), x < 100000 :=
      fun x hx => h x ((List.mergeSort_perm idxs _).mem_iff.mp hx)
    exact segName_le_of_le (hmem _ ha) (hmem _ hb) hab

/-! ### Claim C5 -/

/-- C5: the concat manifest lists the fetched segments in ascending index
order — it equals one `file '<name>'` line per segment index, taken in
sorted (ascending) index order — and it is invariant under any permutation
of the order in which the pool delivered the paths.  This relies on the
zero-padded names, so the indices are assumed below the padding bound
`10 ^ 5`. -/
theorem c5_manifest_ascending (idxs : List Nat) (h : ∀ i ∈ idxs, i < 100000) :
    concatManifest (idxs.map segName)
        = (idxs.mergeSort (fun a b => decide (a ≤ b))).map
            (fun i => manifestLine (segName i)) ∧
      (idxs.mergeSort (fun a b => decide (a ≤ b))).Sorted (· ≤ ·) ∧
      ∀ idxs' : List Nat, idxs'.Perm idxs →
        concatManifest (idxs'.map segName) = concatManifest (idxs.map segName) := by
  have main : ∀ l : List Nat, (∀ i ∈ l, i < 100000) →
      concatManifest (l.map segName)
        = (l.mergeSort (fun a b => decide (a ≤ b))).map
            (fun i => manifestLine (segName i)) := by
    intro l hl
    unfold concatManifest pySorted
    rw [mergeSort_map_segName l hl, List.map_map]
    rfl
  refine ⟨main idxs h, mergeSort_sorted_le idxs, fun idxs' hperm => ?_⟩
  have h' : ∀ i ∈ idxs', i < 100000 := fun i hi => h i (hperm.mem_iff.mp hi)
  rw [main idxs' h', main idxs h]
  have : idxs'.mergeSort (fun a b => decide (a ≤ b))
      = idxs.mergeSort (fun a b => decide (a ≤ b)) :=
    List.eq_of_perm_of_sorted (r := (· ≤ · : Nat → Nat → Prop))
      ((List.mergeSort_perm idxs' _).trans
        (hperm.trans (List.mergeSort_perm idxs _).symm))
      (mergeSort_sorted_le idxs') (mergeSort_sorted_le idxs)
  rw [this]

/-- Witness for C5: for the out-of-order path list of segments 2, 0, 1 the
manifest is the ascending one. -/
theorem c5_witness :
    concatManifest ([2, 0, 1].map segName)
      = ([2, 0, 1].mergeSort (fun a b => decide (a ≤ b))).map
          (fun i => manifestLine (segName i)) :=
  (c5_manifest_ascending [2, 0, 1] (by decide)).1

/-! ### Helper lemmas about progress writes -/

/-- The pool's write values depend only on how many fetches have completed,
not on the completion order: starting from counter `c`, the writes are the
percentages at counts `c+1 .. c+S` where `S` is the number of completing
fetches. -/
theorem poolProgressWrites_eq (total : Nat) :
    ∀ (oks : List Bool) (c : Nat),
      poolProgressWrites total oks c
        = (List.range' (c + 1) (oks.count true)).map (fun m => (pct m total, 100)) := by
  intro oks
  induction oks with
  | nil => intro c; simp [poolProgressWrites]
  | cons ok rest ih =>
    intro c
    cases ok with
    | true =>
      rw [show (true :: rest).count true = rest.count true + 1 from
          List.count_cons_self true rest,
        List.range'_succ, List.map_cons]
      simp only [poolProgressWrites, if_true]
      rw [ih (c + 1)]
    | false =>
      have hcnt : (false :: rest).count true = rest.count true := by
        simp [List.count_cons]
      rw [hcnt]
      simp only [poolProgressWrites, Bool.false_eq_true, if_false]
      exact ih c

theorem pct_mono (total : Nat) {c d : Nat} (h : c ≤ d) : pct c total ≤ pct d total :=
  Nat.div_le_div_right (Nat.mul_le_mul_left 100 h)

theorem pct_le_100 (total : Nat) {m : Nat} (h : m ≤ total) : pct m total ≤ 100 := by
  rcases Nat.eq_zero_or_pos total with h0 | hpos
  · simp [pct, h0]
  · calc pct m total ≤ pct total total := pct_mono total h
      _ = 100 := by
        show 100 * total / total = 100
        exact Nat.mul_div_cancel 100 hpos

theorem one_le_pct_one (total : Nat) (hpos : 0 < total) (h100 : total ≤ 100) :
    1 ≤ pct 1 total := by
  show 1 ≤ 100 * 1 / total
  rw [Nat.mul_one]
  exact (Nat.one_le_div_iff hpos).mpr h100

/-! ### Helper lemmas for claim C6 -/

/-- Dropping the `None` results of a mixed pool keeps exactly the names of
the non-failing indices, in order. -/
theorem filterMap_result_split (F : List Nat) :
    ∀ l : List Nat,
      ((l.map (fun i => if i ∈ F then
            (⟨none, 5, [1, 2, 4, 8, 16], [i], false, false⟩ : SegResult)
          else ⟨some (segName i), 1, [], [], true, false⟩)).filterMap
        (fun r => r.result))
        = (l.filter (fun i => decide (i ∉ F))).map segName := by
  intro l
  induction l with
  | nil => simp
  | cons i t ih =>
    by_cases hi : i ∈ F
    · simp [List.filterMap_cons, List.filter_cons, hi, ih]
    · simp [List.filterMap_cons, List.filter_cons, hi, ih]

/-- The per-segment error-log contributions of a mixed pool. -/
theorem segLog_split (F : List Nat) :
    ∀ l : List Nat,
      ((l.map (fun i => if i ∈ F then
            (⟨none, 5, [1, 2, 4, 8, 16], [i], false, false⟩ : SegResult)
          else ⟨some (segName i), 1, [], [], true, false⟩)).map
        (fun r => r.segLog))
        = l.map (fun i => if i ∈ F then [i] else []) := by
  intro l
  rw [List.map_map]
  apply List.map_congr_left
  intro i _
  by_cases hi : i ∈ F
  · simp [hi]
  · simp [hi]

/-- On a duplicate-free index list, the flattened one-entry-per-failure logs
contain each failing index exactly once. -/
theorem count_flatten_single (F : List Nat) (x : Nat) :
    ∀ l : List Nat, l.Nodup → x ∈ l → x ∈ F →
      ((l.map (fun i => if i ∈ F then [i] else [])).flatten).count x = 1 := by
  intro l
  induction l with
  | nil => intro _ hx _; simp at hx
  | cons i t ih =>
    intro hnd hx hxF
    have hnd' := List.nodup_cons.mp hnd
    rcases List.mem_cons.mp hx with rfl | hxt
    · have hnotin : x ∉ ((t.map (fun i => if i ∈ F then [i] else [])).flatten) := by
        intro hmem
        rcases List.mem_flatten.mp hmem with ⟨s, hs, hxs⟩
        rcases List.mem_map.mp hs with ⟨j, hjt, rfl⟩
        by_cases hj : j ∈ F
        · rw [if_pos hj] at hxs
          rcases List.mem_singleton.mp hxs with rfl
          exact hnd'.1 hjt
        · rw [if_neg hj] at hxs
          simp at hxs
      simp [hxF, List.count_eq_zero.mpr hnotin]
    · have hne : i ≠ x := fun he => hnd'.1 (he ▸ hxt)
      have hc := ih hnd'.2 hxt hxF
      by_cases hi : i ∈ F
      · simp only [List.map_cons, List.flatten_cons, hi, if_true, List.count_append]
        rw [hc]
        simp [List.count_singleton', Ne.symm hne]
      · simp only [List.map_cons, List.flatten_cons, hi, if_false, List.count_append]
        rw [hc]
        simp

/-- A mixed pool reduces to a per-index case split. -/
theorem downloadPool_split (n : Nat) (F : List Nat) (envs : Nat → SegEnv)
    (hce : ∀ i, (envs i).cancelEntry = false)
    (hfail : ∀ i, i < n → i ∈ F → (envs i).exists0 = false ∧
      (∀ a, (envs i).cancelPre a = false) ∧ (∀ a, (envs i).outcome a = .httpError))
    (hok : ∀ i, i < n → i ∉ F → (envs i).exists0 = false ∧
      (envs i).cancelPre 0 = false ∧ (envs i).outcome 0 = .body [1] ∧
      ∀ j, (envs i).cancelChunk 0 j = false) :
    downloadPool envs n = (List.range n).map (fun i => if i ∈ F then
        (⟨none, 5, [1, 2, 4, 8, 16], [i], false, false⟩ : SegResult)
      else ⟨some (segName i), 1, [], [], true, false⟩) := by
  unfold downloadPool
  apply List.map_congr_left
  intro i hi
  have hin : i < n := List.mem_range.mp hi
  by_cases hiF : i ∈ F
  · rw [if_pos hiF]
    exact download_ts_all_fail (envs i) i (hce i) ((hfail i hin hiF).1)
      ((hfail i hin hiF).2.1) ((hfail i hin hiF).2.2)
  · rw [if_neg hiF]
    exact download_ts_first_try (envs i) i (hce i) ((hok i hin hiF).1)
      ((hok i hin hiF).2.1) [1] ((hok i hin hiF).2.2.1) ((hok i hin hiF).2.2.2)
      (by simp)

/-! ### Claim C6 -/

/-- C6: when the segments with indices in `F` permanently fail (all five
attempts raise) and all other segments succeed, the worker's
`segment_paths` are exactly the successfully fetched paths (in index order),
the job still reaches the muxing step (`muxInvoked`), the manifest is built
from only those paths, and the error log counts exactly one
`Segment {i} failed` entry for each failing index `i`. -/
theorem c6_partial_failure_tolerance (n : Nat) (F : List Nat) (envs : Nat → SegEnv)
    (ff : Bool)
    (hce : ∀ i, (envs i).cancelEntry = false)
    (hfail : ∀ i, i < n → i ∈ F → (envs i).exists0 = false ∧
      (∀ a, (envs i).cancelPre a = false) ∧ (∀ a, (envs i).outcome a = .httpError))
    (hok : ∀ i, i < n → i ∉ F → (envs i).exists0 = false ∧
      (envs i).cancelPre 0 = false ∧ (envs i).outcome 0 = .body [1] ∧
      ∀ j, (envs i).cancelChunk 0 j = false) :
    (download ⟨false, false, false, true, true, n, envs, ff⟩).muxInvoked = true ∧
    (download ⟨false, false, false, true, true, n, envs, ff⟩).segmentPaths
      = ((List.range n).filter (fun i => decide (i ∉ F))).map segName ∧
    (download ⟨false, false, false, true, true, n, envs, ff⟩).manifest
      = concatManifest (((List.range n).filter (fun i => decide (i ∉ F))).map segName) ∧
    ∀ i, i < n → i ∈ F →
      (download ⟨false, false, false, true, true, n, envs, ff⟩).errorLog.count
        (.segmentFailed i) = 1 := by
  have hpool := downloadPool_split n F envs hce hfail hok
  have hpaths : (downloadPool envs n).filterMap (fun r => r.result)
      = ((List.range n).filter (fun i => decide (i ∉ F))).map segName := by
    rw [hpool]; exact filterMap_result_split F (List.range n)
  have hlogs : ((downloadPool envs n).map (fun r => r.segLog)).flatten
      = ((List.range n).map (fun i => if i ∈ F then [i] else [])).flatten := by
    rw [hpool, segLog_split F (List.range n)]
  have hcount : ∀ i, i < n → i ∈ F →
      ((((downloadPool envs n).map (fun r => r.segLog)).flatten).map
        LogEntry.segmentFailed).count (.segmentFailed i) = 1 := by
    intro i hin hiF
    rw [hlogs, List.count_map_of_injective _ LogEntry.segmentFailed
      (fun a b hab => by injection hab) i]
    exact count_flatten_single F i (List.range n) (List.nodup_range n)
      (List.mem_range.mpr hin) hiF
  have hmiss : ∀ i : Nat,
      (if ((downloadPool envs n).filterMap (fun r : SegResult => r.result)).length < n
        then [LogEntry.segmentsMissing
          (n - ((downloadPool envs n).filterMap (fun r : SegResult => r.result)).length)]
        else []).count (LogEntry.segmentFailed i) = 0 := by
    intro i
    split
    · simp [List.count_singleton']
    · simp
  cases ff with
  | false =>
    have hdl : download ⟨false, false, false, true, true, n, envs, false⟩
        = ⟨true, false, true, false, false,
            [(0, 100), (1, 100)] ++ poolProgressWrites n
              ((downloadPool envs n).map (fun r : SegResult => r.completedInc)) 0,
            (((downloadPool envs n).map (fun r : SegResult => r.segLog)).flatten).map
                LogEntry.segmentFailed
              ++ (if ((downloadPool envs n).filterMap
                    (fun r : SegResult => r.result)).length < n
                  then [LogEntry.segmentsMissing
                    (n - ((downloadPool envs n).filterMap
                      (fun r : SegResult => r.result)).length)]
                  else [])
              ++ [.ffmpegFailed, .ffmpegStderrDump],
            downloadPool envs n,
            (downloadPool envs n).filterMap (fun r : SegResult => r.result),
            concatManifest ((downloadPool envs n).filterMap
              (fun r : SegResult => r.result))⟩ := rfl
    rw [hdl]
    refine ⟨rfl, hpaths, by rw [hpaths], ?_⟩
    intro i hin hiF
    show ((((downloadPool envs n).map (fun r : SegResult => r.segLog)).flatten).map
          LogEntry.segmentFailed
        ++ (if ((downloadPool envs n).filterMap
              (fun r : SegResult => r.result)).length < n
            then [LogEntry.segmentsMissing
              (n - ((downloadPool envs n).filterMap
                (fun r : SegResult => r.result)).length)]
            else [])
        ++ [LogEntry.ffmpegFailed, LogEntry.ffmpegStderrDump]).count
          (LogEntry.segmentFailed i) = 1
    rw [List.count_append, List.count_append, hcount i hin hiF, hmiss i]
    simp [List.count_cons]
  | true =>
    have hdl : download ⟨false, false, false, true, true, n, envs, true⟩
        = ⟨true, true, true, true, true,
            [(0, 100), (1, 100)] ++ poolProgressWrites n
              ((downloadPool envs n).map (fun r : SegResult => r.completedInc)) 0
              ++ [(100, 100)],
            (((downloadPool envs n).map (fun r : SegResult => r.segLog)).flatten).map
                LogEntry.segmentFailed
              ++ (if ((downloadPool envs n).filterMap
                    (fun r : SegResult => r.result)).length < n
                  then [LogEntry.segmentsMissing
                    (n - ((downloadPool envs n).filterMap
                      (fun r : SegResult => r.result)).length)]
                  else []),
            downloadPool envs n,
            (downloadPool envs n).filterMap (fun r : SegResult => r.result),
            concatManifest ((downloadPool envs n).filterMap
              (fun r : SegResult => r.result))⟩ := rfl
    rw [hdl]
    refine ⟨rfl, hpaths, by rw [hpaths], ?_⟩
    intro i hin hiF
    show ((((downloadPool envs n).map (fun r : SegResult => r.segLog)).flatten).map
          LogEntry.segmentFailed
        ++ (if ((downloadPool envs n).filterMap
              (fun r : SegResult => r.result)).length < n
            then [LogEntry.segmentsMissing
              (n - ((downloadPool envs n).filterMap
                (fun r : SegResult => r.result)).length)]
            else [])).count (LogEntry.segmentFailed i) = 1
    rw [List.count_append, hcount i hin hiF, hmiss i]

/-- Witness for C6 at the spec's own example: 10 segments, indices 3 and 7
permanently failing; the other 8 paths are returned, the mux step is
reached and each of 3 and 7 is logged exactly once. -/
theorem c6_witness :
    (download ⟨false, false, false, true, true, 10,
        (fun i => if i = 3 ∨ i = 7 then
            ⟨false, false, fun _ => false, fun _ _ => false, fun _ => .httpError⟩
          else ⟨false, false, fun _ => false, fun _ _ => false, fun _ => .body [1]⟩),
        true⟩).muxInvoked = true ∧
    (download ⟨false, false, false, true, true, 10,
        (fun i => if i = 3 ∨ i = 7 then
            ⟨false, false, fun _ => false, fun _ _ => false, fun _ => .httpError⟩
          else ⟨false, false, fun _ => false, fun _ _ => false, fun _ => .body [1]⟩),
        true⟩).errorLog.count (.segmentFailed 3) = 1 ∧
    (download ⟨false, false, false, true, true, 10,
        (fun i => if i = 3 ∨ i = 7 then
            ⟨false, false, fun _ => false, fun _ _ => false, fun _ => .httpError⟩
          else ⟨false, false, fun _ => false, fun _ _ => false, fun _ => .body [1]⟩),
        true⟩).errorLog.count (.segmentFailed 7) = 1 := by
  have h := c6_partial_failure_tolerance 10 [3, 7]
    (fun i => if i = 3 ∨ i = 7 then
        ⟨false, false, fun _ => false, fun _ _ => false, fun _ => .httpError⟩
      else ⟨false, false, fun _ => false, fun _ _ => false, fun _ => .body [1]⟩)
    true
    (fun i => by by_cases hi : i = 3 ∨ i = 7 <;> simp [hi])
    (fun i hin hiF => by
      have hi : i = 3 ∨ i = 7 := by simpa using hiF
      exact ⟨by simp [hi], fun a => by simp [hi], fun a => by simp [hi]⟩)
    (fun i hin hiF => by
      have hi : ¬ (i = 3 ∨ i = 7) := by simpa using hiF
      exact ⟨by simp [hi], by simp [hi], by simp [hi], fun j => by simp [hi]⟩)
  exact ⟨h.1, h.2.2.2 3 (by decide) (by decide), h.2.2.2 7 (by decide) (by decide)⟩

/-! ### Claim C7 -/

/-- C7 counterexample: a run with a 3-segment manifest in which segments
complete one by one.  The store write made when 1 of the 3 segments had
completed carries `current = 33` (the integer percentage) and `total = 100`
— not `current = 1`, `total = 3` as the claim states. -/
theorem c7_counterexample :
    (download ⟨false, false, false, true, true, 3,
        (fun _ => ⟨true, false, fun _ => false, fun _ _ => false, fun _ => .httpError⟩),
        true⟩).progressWrites
      = [(0, 100), (1, 100), (33, 100), (66, 100), (100, 100), (100, 100)] ∧
    (update_progress 33 100).current = 33 ∧
    (update_progress 33 100).total = 100 ∧
    ¬ ((update_progress 33 100).current = 1 ∧ (update_progress 33 100).total = 3) := by
  decide

/-- C7 amended: each pool-phase store write for a lecture with `total`
segments and `c` completions carries `current = pct c total` — the integer
percentage `⌊100·c/total⌋`, not the completion count — and `total = 100`,
not the number of expected segments; `update_progress` stores its two
arguments unchanged.  On a full successful run the write sequence is the
initial `(0,100)`, the post-acquire `(1,100)`, one `(pct c total, 100)` per
completion `c = 1..S`, and the final `(100,100)`. -/
theorem c7_amended_writes_percentage :
    (∀ (total : Nat) (oks : List Bool),
        poolProgressWrites total oks 0
          = (List.range' 1 (oks.count true)).map (fun c => (pct c total, 100))) ∧
    (∀ cur tot : Nat, (update_progress cur tot).current = cur ∧
        (update_progress cur tot).total = tot) ∧
    (∀ env : DlEnv, env.cancelAtStart = false → env.cancelBeforeAcquire = false →
      env.cancelAfterAcquire = false → env.playlistOk = true →
      env.writeAccessOk = true → env.ffmpegOk = true →
      (download env).progressWrites
        = [(0, 100), (1, 100)]
          ++ (List.range' 1 (((downloadPool env.segEnvs env.nSegments).map
                (fun r => r.completedInc)).count true)).map
              (fun c => (pct c env.nSegments, 100))
          ++ [(100, 100)]) := by
  refine ⟨fun total oks => poolProgressWrites_eq total oks 0, ?_, ?_⟩
  · intro cur tot
    unfold update_progress
    split_ifs <;> exact ⟨rfl, rfl⟩
  · intro env h1 h2 h3 h4 h5 h6
    rw [show (download env).progressWrites
        = [(0, 100), (1, 100)] ++ poolProgressWrites env.nSegments
            ((downloadPool env.segEnvs env.nSegments).map (fun r => r.completedInc)) 0
          ++ [(100, 100)] by
      simp [download, h1, h2, h3, h4, h5, h6]]
    rw [poolProgressWrites_eq]

/-- Witness for C7's amended statement: the 3-segment run of the
counterexample matches the amended write sequence. -/
theorem c7_witness :
    (download ⟨false, false, false, true, true, 3,
        (fun _ => ⟨true, false, fun _ => false, fun _ _ => false, fun _ => .httpError⟩),
        true⟩).progressWrites
      = [(0, 100), (1, 100)]
        ++ (List.range' 1 (((downloadPool
              (fun _ => (⟨true, false, fun _ => false, fun _ _ => false,
                fun _ => .httpError⟩ : SegEnv)) 3).map
              (fun r => r.completedInc)).count true)).map (fun c => (pct c 3, 100))
        ++ [(100, 100)] :=
  c7_amended_writes_percentage.2.2 _ rfl rfl rfl rfl rfl rfl

/-! ### Claim C8 -/

/-- C8 counterexample: an error-free, fully successful run over a manifest
with 101 segments.  The worker writes `current = 1` after acquiring the
semaphore (line 168) and then `current = pct 1 101 = 0` when the first
segment completes — the sequence of written `current` values decreases. -/
theorem c8_counterexample :
    ¬ List.Chain' (· ≤ ·)
      ((download ⟨false, false, false, true, true, 101,
          (fun _ => ⟨true, false, fun _ => false, fun _ _ => false,
            fun _ => .httpError⟩),
          true⟩).progressWrites.map Prod.fst) := by
  intro hch
  rw [show (download ⟨false, false, false, true, true, 101,
        (fun _ => ⟨true, false, fun _ => false, fun _ _ => false,
          fun _ => .httpError⟩),
        true⟩).progressWrites.map Prod.fst
      = 0 :: 1 :: 0 :: (List.range' 1 100 ++ [100]) by decide] at hch
  have h1 := (List.chain'_cons.mp hch).2
  have h2 := (List.chain'_cons.mp h1).1
  exact absurd h2 (by decide)

/-- C8 amended: the written `current` values are non-decreasing within a
single run provided phase 1 does not hit the error reset (the playlist loads
and the temp-directory write test passes — those paths rewrite `current` to
0 after the post-acquire 1) and the manifest has at most 100 segments (with
more, the first completion's percentage `⌊100/total⌋ = 0` drops below the
post-acquire write of 1). -/
theorem c8_amended_monotone (env : DlEnv) (hp : env.playlistOk = true)
    (hw : env.writeAccessOk = true) (hn : env.nSegments ≤ 100) :
    List.Chain' (· ≤ ·) ((download env).progressWrites.map Prod.fst) := by
  have key : ∀ final100 : Bool,
      List.Chain' (· ≤ ·) (0 :: 1 ::
        ((List.range' 1 (((downloadPool env.segEnvs env.nSegments).map
            (fun r => r.completedInc)).count true)).map
          (fun m => pct m env.nSegments)
         ++ (if final100 then [100] else []))) := by
    intro final100
    set S := ((downloadPool env.segEnvs env.nSegments).map
      (fun r => r.completedInc)).count true with hSdef
    have hSn : S ≤ env.nSegments := by
      calc S ≤ ((downloadPool env.segEnvs env.nSegments).map
            (fun r => r.completedInc)).length := List.count_le_length _ _
        _ = env.nSegments := by simp [downloadPool]
    rw [List.chain'_iff_pairwise, List.pairwise_cons]
    refine ⟨fun b _ => Nat.zero_le b, ?_⟩
    rw [List.pairwise_cons]
    constructor
    · intro b hb
      rcases List.mem_append.mp hb with hbm | hbt
      · rcases List.mem_map.mp hbm with ⟨m, hm, rfl⟩
        have hm1 := (List.mem_range'_1.mp hm).1
        have hmS : m < 1 + S := (List.mem_range'_1.mp hm).2
        have hTpos : 0 < env.nSegments := by omega
        calc (1 : Nat) ≤ pct 1 env.nSegments := one_le_pct_one _ hTpos hn
          _ ≤ pct m env.nSegments := pct_mono _ hm1
      · cases final100 with
        | true => rcases List.mem_singleton.mp (by simpa using hbt) with rfl; omega
        | false => simp at hbt
    rw [List.pairwise_append]
    refine ⟨?_, ?_, ?_⟩
    · rw [List.pairwise_map]
      exact (List.pairwise_lt_range' 1 S).imp (fun hab => pct_mono _ (Nat.le_of_lt hab))
    · cases final100 with
      | true => simp
      | false => simp
    · intro a ham b hbt
      rcases List.mem_map.mp ham with ⟨m, hm, rfl⟩
      have hmS : m < 1 + S := (List.mem_range'_1.mp hm).2
      cases final100 with
      | true =>
        rcases List.mem_singleton.mp (by simpa using hbt) with rfl
        exact pct_le_100 _ (by omega)
      | false => simp at hbt
  cases h1 : env.cancelAtStart with
  | true => simp [download, h1]
  | false =>
  cases h2 : env.cancelBeforeAcquire with
  | true => simp [download, h1, h2]
  | false =>
  cases h3 : env.cancelAfterAcquire with
  | true => simp [download, h1, h2, h3]
  | false =>
  cases h6 : env.ffmpegOk with
  | true =>
    have hw' : (download env).progressWrites
        = [(0, 100), (1, 100)] ++ poolProgressWrites env.nSegments
            ((downloadPool env.segEnvs env.nSegments).map (fun r => r.completedInc)) 0
          ++ [(100, 100)] := by
      simp [download, h1, h2, h3, hp, hw, h6]
    rw [hw', poolProgressWrites_eq]
    have := key true
    simpa [List.map_map] using this
  | false =>
    have hw' : (download env).progressWrites
        = [(0, 100), (1, 100)] ++ poolProgressWrites env.nSegments
            ((downloadPool env.segEnvs env.nSegments).map (fun r => r.completedInc)) 0 := by
      simp [download, h1, h2, h3, hp, hw, h6]
    rw [hw', poolProgressWrites_eq]
    have := key false
    simpa [List.map_map] using this

/-- Witness for C8's amended statement: the 3-segment fully successful run
has a non-decreasing sequence of written `current` values. -/
theorem c8_witness :
    List.Chain' (· ≤ ·) ((download ⟨false, false, false, true, true, 3,
        (fun _ => ⟨true, false, fun _ => false, fun _ _ => false, fun _ => .httpError⟩),
        true⟩).progressWrites.map Prod.fst) :=
  c8_amended_monotone _ rfl rfl (by decide)

/-! ### Claim C9 -/

/-- C9 counterexample: a worker past the three function-level flag checks
whose every segment fetch observes the cancellation flag and aborts (all
results are `None`) nevertheless proceeds to the muxing step — `download`
has no cancellation check between the pool and the ffmpeg invocation, so
"the worker performs no further work for that job" is false; abandoning the
job relies on the orchestrator forcibly terminating the process. -/
theorem c9_counterexample :
    (download ⟨false, false, false, true, true, 2,
        (fun _ => ⟨false, true, fun _ => false, fun _ _ => false, fun _ => .httpError⟩),
        true⟩).muxInvoked = true ∧
    (∀ r ∈ (download ⟨false, false, false, true, true, 2,
        (fun _ => ⟨false, true, fun _ => false, fun _ _ => false, fun _ => .httpError⟩),
        true⟩).segResults, r.result = none) := by
  decide

/-- C9 amended: every segment fetch checks the token at entry, before each
retry attempt and at every streamed chunk, and on a set token returns `None`
at once — zero or one network call, no backoff sleep, no error-log entry
(the abort is not counted as a retryable failure), and no partial temp file
left — but the worker itself is not abandoned: once past its three
function-level checks it always proceeds to the muxing step, whatever the
fetches returned; teardown of a cancelled job is the orchestrator's
responsibility. -/
theorem c9_amended_cancellation :
    (∀ (env : SegEnv) (idx : Nat), env.cancelEntry = true →
        download_ts env idx = ⟨none, 0, [], [], false, false⟩) ∧
    (∀ (env : SegEnv) (idx a : Nat) (rest : List Nat), env.cancelPre a = true →
        tsAttempts env idx (a :: rest) = ⟨none, 0, [], [], false, false⟩) ∧
    (∀ (env : SegEnv) (idx a : Nat) (rest : List Nat) (chunks : List Nat),
        env.cancelPre a = false → env.outcome a = .body chunks →
        writeChunks (env.cancelChunk a) chunks 0 0 = none →
        tsAttempts env idx (a :: rest) = ⟨none, 1, [], [], false, false⟩) ∧
    (∀ env : DlEnv, env.cancelAtStart = false → env.cancelBeforeAcquire = false →
        env.cancelAfterAcquire = false → env.playlistOk = true →
        env.writeAccessOk = true → (download env).muxInvoked = true) := by
  refine ⟨?_, ?_, ?_, ?_⟩
  · intro env idx h
    simp [download_ts, h]
  · intro env idx a rest h
    simp [tsAttempts, h]
  · intro env idx a rest chunks h1 h2 h3
    simp [tsAttempts, h1, h2, h3]
  · intro env h1 h2 h3 h4 h5
    cases h6 : env.ffmpegOk with
    | true => simp [download, h1, h2, h3, h4, h5, h6]
    | false => simp [download, h1, h2, h3, h4, h5, h6]

/-- Witness for C9's amended statement: a fetch entered with the flag set
aborts immediately with no network call, and a cancelled-mid-flight worker
still reaches the mux step. -/
theorem c9_witness :
    download_ts ⟨false, true, fun _ => false, fun _ _ => false, fun _ => .httpError⟩ 0
        = ⟨none, 0, [], [], false, false⟩ ∧
      (download ⟨false, false, false, true, true, 1,
          (fun _ => ⟨false, true, fun _ => false, fun _ _ => false,
            fun _ => .httpError⟩), true⟩).muxInvoked = true :=
  ⟨c9_amended_cancellation.1 _ 0 rfl,
   c9_amended_cancellation.2.2.2 _ rfl rfl rfl rfl rfl⟩

/-! ### Claim C10 -/

/-- C10: after the semaphore has been acquired, the ffmpeg-failure return
(lines 357-369) is the one and only exit path of `download` that does not
release the semaphore slot: the slot is left unreleased exactly when the mux
step ran and the ffmpeg subprocess exited non-zero. -/
theorem c10_mux_failure_leaks_semaphore (env : DlEnv)
    (hacq : (download env).semAcquired = true) :
    (download env).semReleased = false ↔
      ((download env).muxInvoked = true ∧ env.ffmpegOk = false) := by
  cases h1 : env.cancelAtStart with
  | true => rw [show (download env).semAcquired = false by simp [download, h1]] at hacq; exact absurd hacq (by simp)
  | false =>
  cases h2 : env.cancelBeforeAcquire with
  | true => rw [show (download env).semAcquired = false by simp [download, h1, h2]] at hacq; exact absurd hacq (by simp)
  | false =>
  cases h3 : env.cancelAfterAcquire with
  | true => simp [download, h1, h2, h3]
  | false =>
  cases h4 : env.playlistOk with
  | false => simp [download, h1, h2, h3, h4]
  | true =>
  cases h5 : env.writeAccessOk with
  | false => simp [download, h1, h2, h3, h4, h5]
  | true =>
  cases h6 : env.ffmpegOk with
  | true => simp [download, h1, h2, h3, h4, h5, h6]
  | false => simp [download, h1, h2, h3, h4, h5, h6]

/-- Witness for C10: a concrete run whose mux fails has the semaphore
acquired and not released. -/
theorem c10_witness :
    (download ⟨false, false, false, true, true, 1,
        (fun _ => ⟨true, false, fun _ => false, fun _ _ => false, fun _ => .httpError⟩),
        false⟩).semAcquired = true ∧
      ((download ⟨false, false, false, true, true, 1,
          (fun _ => ⟨true, false, fun _ => false, fun _ _ => false, fun _ => .httpError⟩),
          false⟩).semReleased = false ↔
        ((download ⟨false, false, false, true, true, 1,
            (fun _ => ⟨true, false, fun _ => false, fun _ _ => false, fun _ => .httpError⟩),
            false⟩).muxInvoked = true ∧ (false : Bool) = false)) :=
  ⟨by decide, c10_mux_failure_leaks_semaphore _ (by decide)⟩

/-! ### Claim C1 -/

/-- C1: for every job in a batch, if the lock file or the final output file
already exists when the orchestrator reaches that job, no lock is created and
no worker process is spawned for it (the loop for that job is the identity on
the filesystem and contributes nothing to the spawn list); consequently a
second call to the orchestrator with the same jobs list and no cancellation
spawns zero new workers. -/
theorem c1_skip_and_second_batch_spawns_none :
    (∀ (folder name url : String) (rest : List (String × String)) (fs : List String),
        (lockPath (outPath folder (sanitize name)) ∈ fs ∨
          outPath folder (sanitize name) ∈ fs) →
        download_list_of_videos folder false ((name, url) :: rest) fs
          = download_list_of_videos folder false rest fs ∧
        outPath folder (sanitize name)
          ∉ (download_list_of_videos folder false ((name, url) :: rest) fs).2) ∧
    (∀ (folder : String) (vs : List (String × String)) (fs : List String),
        (download_list_of_videos folder false vs
          (download_list_of_videos folder false vs fs).1).2 = []) := by
  constructor
  · intro folder name url rest fs hex
    have hb : (lockPath (outPath folder (sanitize name)) ∈ fs
        || outPath folder (sanitize name) ∈ fs) = true := by
      simpa [Bool.or_eq_true, decide_eq_true_eq] using hex
    have hskip : download_list_of_videos folder false ((name, url) :: rest) fs
        = download_list_of_videos folder false rest fs := by
      simp [download_list_of_videos, hb]
    refine ⟨hskip, fun hmem => ?_⟩
    rw [hskip] at hmem
    have := dlv_spawned_not_locked folder false rest fs _ hmem
    rcases hex with hl | ho
    · exact this.1 hl
    · exact this.2 ho
  · intro folder vs fs
    exact dlv_all_covered_spawns_none folder vs _
      (fun name url hm => dlv_covered folder vs fs name url hm)

/-- Witness for C1: with `out/a.mp4.lock` present, the job `("a", "u")` is
skipped and a repeated empty-start batch spawns nothing. -/
theorem c1_witness :
    download_list_of_videos "out" false [("a", "u")] ["out/a.mp4.lock"]
        = download_list_of_videos "out" false [] ["out/a.mp4.lock"] ∧
      (download_list_of_videos "out" false [("a", "u")]
        (download_list_of_videos "out" false [("a", "u")] []).1).2 = [] :=
  ⟨(c1_skip_and_second_batch_spawns_none.1 "out" "a" "u" [] ["out/a.mp4.lock"]
      (Or.inl (by decide))).1,
   c1_skip_and_second_batch_spawns_none.2 "out" [("a", "u")] []⟩

/-! ### Claim C2 -/

/-- C2 counterexample: lock creation is a non-atomic check-then-`touch`
(`Path.touch` with `exist_ok=True` succeeds even if the file exists, and the
existence check at line 110 is separated from the `touch` at line 118), so
two orchestrator instances racing on the same output path can both pass the
check and both spawn a worker.  The schedule below (instance 1 checks,
instance 2 checks, instance 1 creates and spawns, instance 2 creates and
spawns) yields one worker from each instance, refuting the claimed
at-most-one-worker-per-output guarantee. -/
theorem c2_counterexample :
    ¬ (∀ sched : List Bool,
        (raceRun "d/v.mp4.lock" "d/v.mp4" sched raceInit).workers1 +
          (raceRun "d/v.mp4.lock" "d/v.mp4" sched raceInit).workers2 ≤ 1) := by
  intro h
  have := h [true, false, true, false]
  revert this
  decide

/-- C2 amended: within a single orchestrator instance the check-then-create
sequence does guarantee at most one spawned worker per output path (once the
lock is created, every later job with the same sanitized name is skipped);
the cross-instance atomicity claimed by the spec does not hold. -/
theorem c2_amended_single_instance_at_most_one (folder : String) (cancel : Bool)
    (vs : List (String × String)) (fs : List String) (out : String) :
    (download_list_of_videos folder cancel vs fs).2.count out ≤ 1 := by
  induction vs generalizing fs with
  | nil => simp [download_list_of_videos]
  | cons v rest ih =>
    obtain ⟨name, url⟩ := v
    by_cases hc : cancel
    · simp [download_list_of_videos, hc]
    · by_cases hskip :
        lockPath (outPath folder (sanitize name)) ∈ fs ∨ outPath folder (sanitize name) ∈ fs
      · have hb : (lockPath (outPath folder (sanitize name)) ∈ fs
            || outPath folder (sanitize name) ∈ fs) = true := by
          simpa [Bool.or_eq_true, decide_eq_true_eq] using hskip
        rw [show download_list_of_videos folder cancel ((name, url) :: rest) fs
              = download_list_of_videos folder cancel rest fs by
            simp [download_list_of_videos, hc, hb]]
        exact ih fs
      · have hb : (lockPath (outPath folder (sanitize name)) ∈ fs
            || outPath folder (sanitize name) ∈ fs) = false := by
          simpa [Bool.or_eq_true, decide_eq_true_eq] using hskip
        rw [show download_list_of_videos folder cancel ((name, url) :: rest) fs
              = ((download_list_of_videos folder cancel rest
                    (lockPath (outPath folder (sanitize name)) :: fs)).1,
                 outPath folder (sanitize name) ::
                   (download_list_of_videos folder cancel rest
                     (lockPath (outPath folder (sanitize name)) :: fs)).2) by
            simp [download_list_of_videos, hc, hb]]
        by_cases heq : out = outPath folder (sanitize name)
        · have hnot : outPath folder (sanitize name) ∉ (download_list_of_videos folder cancel
              rest (lockPath (outPath folder (sanitize name)) :: fs)).2 := by
            intro hmem
            exact (dlv_spawned_not_locked folder cancel rest _ _ hmem).1
              (List.mem_cons_self _ _)
          rw [heq]
          simp [List.count_cons, List.count_eq_zero.mpr hnot]
        · have : (outPath folder (sanitize name) :: (download_list_of_videos folder cancel
              rest (lockPath (outPath folder (sanitize name)) :: fs)).2).count out
              = (download_list_of_videos folder cancel rest
                  (lockPath (outPath folder (sanitize name)) :: fs)).2.count out := by
            simp [List.count_cons, Ne.symm heq]
          rw [this]
          exact ih _

end Downloader
